import Mathlib

/-!
Verification of the schedule reconciliation core of the smart-school-helper
extension (src/utils/config.js, src/unnamed/part_001).

Modelling conventions.
Calendar dates are modelled as day serial numbers (`Int`, days since
1970-01-01) on a single uniform civil timeline, which is what the JavaScript
`Date` arithmetic in the source computes with when the runtime timezone is
consistent.  Fields the source carries as canonical `YYYY-MM-DD` strings are
modelled as serials; `formatDate` renders a serial back to the string.  The
civil-calendar conversions (`daysFromCivil`, `civilFromDays`) implement the
standard proleptic-Gregorian algorithms and stand in for the `Date`
constructor, `getFullYear`, `getMonth`, `getDate`, `getDay`, `setDate`.
All machine arithmetic involved is exact integer arithmetic in the source
(day counts, period numbers), so `Int`/`Nat` model it directly.
-/

/-- Day of week of a serial day number, JavaScript `getDay` convention:
0 = Sunday .. 6 = Saturday.  Serial 0 (1970-01-01) is a Thursday. -/
def dow (z : Int) : Int := (z + 4) % 7

/-- Serial day number of a civil date (proleptic Gregorian).
Models the `Date` constructor from year, month (1-based here), day. -/
def daysFromCivil (y m d : Int) : Int :=
  let y2 := y - (if m ≤ 2 then 1 else 0)
  let era := y2 / 400
  let yoe := y2 - era * 400
  let mp := (m + 9) % 12
  let doy := (153 * mp + 2) / 5 + d - 1
  let doe := yoe * 365 + yoe / 4 - yoe / 100 + doy
  era * 146097 + doe - 719468

/-- Civil date (year, month, day) of a serial day number, inverse of
`daysFromCivil`; models `getFullYear` / `getMonth` / `getDate`. -/
def civilFromDays (z : Int) : Int × Int × Int :=
  let z2 := z + 719468
  let era := z2 / 146097
  let doe := z2 - era * 146097
  let yoe := (doe - doe / 1460 + doe / 36524 - doe / 146096) / 365
  let y := yoe + era * 400
  let doy := doe - (365 * yoe + yoe / 4 - yoe / 100)
  let mp := (5 * doy + 2) / 153
  let d := doy - (153 * mp + 2) / 5 + 1
  let m := mp + (if mp < 10 then 3 else -9)
  (y + (if m ≤ 2 then 1 else 0), m, d)

def yearOf (z : Int) : Int := (civilFromDays z).1

def monthOf (z : Int) : Int := (civilFromDays z).2.1

def dayOf (z : Int) : Int := (civilFromDays z).2.2

/-- Models `String(n).padStart(2, "0")`. -/
def padStart2 (s : String) : String := if s.length < 2 then "0" ++ s else s

/-- Function `formatDate` from config.js: renders a serial as `YYYY-MM-DD`. -/
def formatDate (z : Int) : String :=
  toString (yearOf z) ++ "-" ++ padStart2 (toString (monthOf z)) ++ "-" ++
    padStart2 (toString (dayOf z))

/-- Function `formatDateUA` from config.js: renders a serial as `DD.MM.YYYY`. -/
def formatDateUA (z : Int) : String :=
  padStart2 (toString (dayOf z)) ++ "." ++ padStart2 (toString (monthOf z)) ++ "." ++
    toString (yearOf z)

/-- Function `getDayName` from config.js: the `DAY_NAMES` table indexed by day of week. -/
def getDayName (z : Int) : String :=
  if dow z = 0 then "Неділя"
  else if dow z = 1 then "Понеділок"
  else if dow z = 2 then "Вівторок"
  else if dow z = 3 then "Середа"
  else if dow z = 4 then "Четвер"
  else if dow z = 5 then "Пʼятниця"
  else "Субота"

/-- One row of the fixed `PAIR_TIMES` table from config.js. -/
structure PairTime where
  number : Nat
  start : String
  «end» : String
deriving DecidableEq, Repr

/-- The fixed `PAIR_TIMES` table from config.js: the 8 daily periods. -/
def PAIR_TIMES : List PairTime :=
  [ ⟨1, "08:00", "09:20"⟩,
    ⟨2, "09:30", "10:50"⟩,
    ⟨3, "11:10", "12:30"⟩,
    ⟨4, "12:40", "14:00"⟩,
    ⟨5, "14:10", "15:30"⟩,
    ⟨6, "15:40", "17:00"⟩,
    ⟨7, "17:10", "18:30"⟩,
    ⟨8, "18:40", "20:00"⟩ ]

/-- The day filter of `dateRange`: keep the day unless `weekdaysOnly` is set
and the day is Saturday or Sunday. -/
def isRangeDay (w : Bool) (d : Int) : Bool :=
  !w || (decide (dow d ≠ 0) && decide (dow d ≠ 6))

/-- Fuel-driven unfolding of the `dateRange` loop: while the current date is
at most the end date, push it when the day filter keeps it, then advance the
current date by one day. -/
def dateRangeGo (w : Bool) (e : Int) : Nat → Int → List Int
  | 0, _ => []
  | Nat.succ fuel, s =>
      if s ≤ e then (if isRangeDay w s then [s] else []) ++ dateRangeGo w e fuel (s + 1)
      else []

/-- Function `dateRange` from config.js on serials. -/
def dateRangeSerial (s e : Int) (w : Bool) : List Int :=
  dateRangeGo w e (e + 1 - s).toNat s

/-- Function `dateRange` from config.js: list of `YYYY-MM-DD` strings from `s` to `e`
inclusive, optionally weekdays only. -/
def dateRange (s e : Int) (w : Bool) : List String :=
  (dateRangeSerial s e w).map formatDate

/-- Monday of the week containing `z`, as computed by `getWeekDates` in
config.js: `monday = date - ((dow + 6) % 7)`. -/
def weekMonday (z : Int) : Int := z - ((dow z + 6) % 7)

/-- The five serial dates Monday..Friday produced by the `getWeekDates` loop. -/
def weekDatesSerial (z : Int) : List Int :=
  [weekMonday z, weekMonday z + 1, weekMonday z + 2, weekMonday z + 3, weekMonday z + 4]

/-- Function `getWeekDates` from config.js: the five weekday dates of the week of `z`,
formatted. -/
def getWeekDates (z : Int) : List String :=
  (weekDatesSerial z).map formatDate

/-- Models `Math.round(n / 7)` for an integer `n`:
`Math.round x = ⌊x + 1/2⌋`, so this is `⌊(2n + 7) / 14⌋`. -/
def mathRound7th (n : Int) : Int := (2 * n + 7) / 14

/-- Function `getISOWeek` from part_001: mutate the date to the Thursday of its week,
take the year of that Thursday, and count weeks from January 4 of that year. -/
def getISOWeek (z : Int) : String :=
  let t := z + 3 - ((dow z + 6) % 7)
  let y := yearOf t
  let w1 := daysFromCivil y 1 4
  let weekNo := 1 + mathRound7th (t - w1 - 3 + ((dow w1 + 6) % 7))
  toString y ++ "-W" ++ padStart2 (toString weekNo)

/-- Thursday of the ISO week (weeks start Monday) containing `z`. -/
def thursdayOfWeek (z : Int) : Int := z + 3 - ((dow z + 6) % 7)

/-- The first Thursday on or after January 1 of year `y`: the Thursday whose
week is ISO week 1 of year `y`. -/
def firstThursdayOfYear (y : Int) : Int :=
  let j1 := daysFromCivil y 1 1
  j1 + (4 - dow j1) % 7

/-- ISO-8601 week key, written from the standard: weeks start on Monday, the
Thursday of the week picks the ISO year, week 1 is the week of that year
containing its first Thursday, and consecutive weeks count up by 7 days. -/
def isoWeekKeySpec (z : Int) : String :=
  let t := thursdayOfWeek z
  let y := yearOf t
  toString y ++ "-W" ++ padStart2 (toString (1 + (t - firstThursdayOfYear y) / 7))

/-!  Association-list model of the string-keyed JavaScript objects holding
`Set`s of pair numbers, date to set of pairNumber.  JavaScript object keys
iterate in insertion order for these non-integer-like keys, so an ordered
association list is a faithful model. -/

/-- Lookup in an association list (models `obj[key]`, `undefined` as `none`). -/
def alookup {κ α : Type} [DecidableEq κ] : List (κ × α) → κ → Option α
  | [], _ => none
  | (k2, v) :: rest, k => if k2 = k then some v else alookup rest k

/-- Models `Set.add`: sets are duplicate-free insertion-ordered lists. -/
def setAdd (s : List Nat) (v : Nat) : List Nat := if v ∈ s then s else s ++ [v]

/-- Models `if (!map[k]) map[k] = new Set(); map[k].add(v)`. -/
def mapAdd {κ : Type} [DecidableEq κ] (m : List (κ × List Nat)) (k : κ) (v : Nat) :
    List (κ × List Nat) :=
  match m with
  | [] => [(k, [v])]
  | (k2, s) :: rest => if k2 = k then (k2, setAdd s v) :: rest else (k2, s) :: mapAdd rest k v

/-- Models `map[k] || new Set()`. -/
def occGet {κ : Type} [DecidableEq κ] (m : List (κ × List Nat)) (k : κ) : List Nat :=
  (alookup m k).getD []

/-- Models `map[k] = v` on an object (overwrite or append). -/
def asetUpdate {κ α : Type} [DecidableEq κ] (m : List (κ × α)) (k : κ) (v : α) : List (κ × α) :=
  match m with
  | [] => [(k, v)]
  | (k2, v2) :: rest => if k2 = k then (k2, v) :: rest else (k2, v2) :: asetUpdate rest k v

/-!  Schedule comparator (src/unnamed/part_001). -/

/-- A parsed lesson entry as the comparator consumes it.  `date` is the raw
scraped value: `none` models a missing (`undefined`/absent) date and
`some ""` an empty one; a present canonical date is `some (formatDate z)`. -/
structure CmpEntry where
  date : Option String
  pairNumber : Nat
deriving DecidableEq, Repr

/-- A parsed schedule as the comparator consumes it. -/
structure Schedule where
  entries : List CmpEntry
deriving DecidableEq, Repr

/-- JavaScript object-key coercion of a possibly-missing date value:
`obj[undefined]` stores under the string key `"undefined"`. -/
def jsKey : Option String → String
  | none => "undefined"
  | some s => s

/-- JavaScript truthiness of a possibly-missing date string
(`undefined`, `null` and `""` are falsy). -/
def jsTruthy : Option String → Bool
  | none => false
  | some s => decide (s ≠ "")

/-- Function `buildOccupiedMap` from part_001 (comparator): keys every entry by its raw
`date` value with no missing-date guard. -/
def buildOccupiedMapCmp (entries : List CmpEntry) : List (String × List Nat) :=
  entries.foldl (fun m e => mapAdd m (jsKey e.date) e.pairNumber) []

/-- Function `buildOccupiedMap` from config.js (allocator path): same map but entries
with a falsy `date` are skipped (`if (!entry.date) continue`). -/
def buildOccupiedMapCfg (entries : List CmpEntry) : List (String × List Nat) :=
  entries.foldl
    (fun m e => if jsTruthy e.date then mapAdd m (jsKey e.date) e.pairNumber else m) []

/-- A free slot object as pushed by `findFreeSlots` (dates as serials). -/
structure FreeSlot where
  date : Int
  dateUA : String
  dayName : String
  pairNumber : Nat
  timeStart : String
  timeEnd : String
deriving DecidableEq, Repr

/-- The slot object `findFreeSlots` pushes for date `d` and period `p`. -/
def mkFreeSlot (d : Int) (p : PairTime) : FreeSlot :=
  ⟨d, formatDateUA d, getDayName d, p.number, p.start, p.«end»⟩

/-- Function `findFreeSlots` from part_001: for every weekday date of the range and
every fixed period, emit a slot iff neither schedule occupies it.  The source
hoists the two occupancy maps and the two per-date busy sets out of the
loops; they are pure, so writing them inline is the same function. -/
def findFreeSlots (my target : Schedule) (dateFrom dateTo : Int) : List FreeSlot :=
  (dateRangeSerial dateFrom dateTo true).flatMap (fun d =>
    PAIR_TIMES.filterMap (fun p =>
      if p.number ∈ occGet (buildOccupiedMapCmp my.entries) (formatDate d)
          ∨ p.number ∈ occGet (buildOccupiedMapCmp target.entries) (formatDate d)
      then none else some (mkFreeSlot d p)))

/-- The grouping key `suggestSlots` computes: the `let key` that the two
recognised strategies assign, and the JavaScript `undefined` key (coerced to
the string `"undefined"`) for any other strategy. -/
def slotKey (strategy : String) (s : FreeSlot) : String :=
  if strategy = "first-per-week" then getISOWeek s.date
  else if strategy = "first-per-month" then (formatDate s.date).take 7
  else "undefined"

/-- Models `if (!grouped[key]) grouped[key] = slot`. -/
def insertIfAbsent (g : List (String × FreeSlot)) (k : String) (s : FreeSlot) :
    List (String × FreeSlot) :=
  if (alookup g k).isSome then g else g ++ [(k, s)]

/-- Function `suggestSlots` from part_001: identity for `"all"`, otherwise keep the
first slot seen per grouping key, in first-seen key order
(`Object.values` iterates these non-integer keys in insertion order). -/
def suggestSlots (freeSlots : List FreeSlot) (strategy : String) : List FreeSlot :=
  if strategy = "all" then freeSlots
  else
    (freeSlots.foldl (fun g slot => insertIfAbsent g (slotKey strategy slot) slot) []).map
      Prod.snd

/-- Reference form of the first-seen-per-bucket reduction: walk the input
keeping the first slot of every key not seen before.  Used to state what the
`grouped` object of `suggestSlots` amounts to. -/
def firstPerKey (key : FreeSlot → String) : List String → List FreeSlot → List FreeSlot
  | _, [] => []
  | seen, s :: rest =>
      if key s ∈ seen then firstPerKey key seen rest
      else s :: firstPerKey key (key s :: seen) rest

/-!  Lesson-to-slot allocator (`handleFindSlotsForLessons`, config.js). -/

/-- A selected lesson as the allocator receives it.  The source carries
`date` as a canonical `YYYY-MM-DD` string; it is modelled as a serial. -/
structure Lesson where
  date : Int
  pairNumber : Nat
  group : String
  subject : String
  topic : String
deriving DecidableEq, Repr

/-- A fetched group-schedule entry (allocator path); `none` is a missing date. -/
structure SchedEntryI where
  date : Option Int
  pairNumber : Nat
deriving DecidableEq, Repr

/-- A fetched group schedule (allocator path). -/
structure GroupSchedule where
  entries : List SchedEntryI
deriving DecidableEq, Repr

/-- Function `buildOccupiedMap` from config.js applied to a fetched group schedule:
entries with a falsy `date` are skipped. -/
def buildOccupiedMapI (entries : List SchedEntryI) : List (Int × List Nat) :=
  entries.foldl
    (fun m e => match e.date with
      | some d => mapAdd m d e.pairNumber
      | none => m) []

/-- The teacher occupied map the allocator builds from the batch itself
(`for (const entry of lessons) teacherOccupied[entry.date].add(…)`). -/
def buildTeacherOccupied (lessons : List Lesson) : List (Int × List Nat) :=
  lessons.foldl (fun m l => mapAdd m l.date l.pairNumber) []

/-- The `found` slot object of the allocator. -/
structure FoundSlot where
  date : Int
  dayName : String
  pairNumber : Nat
  timeStart : String
  timeEnd : String
deriving DecidableEq, Repr

/-- The slot object the allocator builds for date `d` and period `p`. -/
def mkFound (d : Int) (p : PairTime) : FoundSlot :=
  ⟨d, getDayName d, p.number, p.start, p.«end»⟩

/-- The acceptance test of a candidate `(date, period)`: free in the real
teacher occupancy, the real group occupancy, the virtual teacher ledger and
the virtual ledger of the target group. -/
def pairFreeAt (tOcc gOcc vT vG : List (Int × List Nat)) (d : Int) (p : PairTime) : Bool :=
  decide (p.number ∉ occGet tOcc d) && decide (p.number ∉ occGet gOcc d) &&
  decide (p.number ∉ occGet vT d) && decide (p.number ∉ occGet vG d)

/-- The nested candidate scan of the allocator: first acceptable
`(date, period)` in week-date order, periods in `PAIR_TIMES` order. -/
def findSlotForWeek (tOcc gOcc vT vG : List (Int × List Nat)) (dates : List Int) :
    Option FoundSlot :=
  dates.findSome? (fun d => (PAIR_TIMES.find? (pairFreeAt tOcc gOcc vT vG d)).map (mkFound d))

/-- The `lesson` echo object pushed into each allocator result. -/
structure ResultLesson where
  date : Int
  dayName : String
  pairNumber : Nat
  group : String
  subject : String
  topic : String
deriving DecidableEq, Repr

/-- Builds the `lesson` echo of a result from the input lesson. -/
def mkResultLesson (l : Lesson) : ResultLesson :=
  ⟨l.date, getDayName l.date, l.pairNumber, l.group, l.subject, l.topic⟩

/-- One allocator result: the echoed lesson and its assigned slot or `null`. -/
structure AllocResult where
  lesson : ResultLesson
  slot : Option FoundSlot
deriving DecidableEq, Repr

/-- The real occupancy map of the group of a lesson: rebuilt from the fetched
group schedule, empty when no schedule was fetched for that group. -/
def groupOccFor (gs : List (String × GroupSchedule)) (g : String) : List (Int × List Nat) :=
  match alookup gs g with
  | some sched => buildOccupiedMapI sched.entries
  | none => []

/-- The allocator loop over the batch, threading the two virtual ledgers:
find the first acceptable slot of the week of each lesson, then reserve it in
the virtual teacher ledger and the virtual ledger of the group of the lesson
before processing the next lesson. -/
def allocGo (tOcc : List (Int × List Nat)) (gs : List (String × GroupSchedule)) :
    List Lesson → List (Int × List Nat) → List (String × List (Int × List Nat)) →
    List AllocResult
  | [], _, _ => []
  | l :: rest, vT, vG =>
    let gOcc := groupOccFor gs l.group
    let vGg := (alookup vG l.group).getD []
    let found := findSlotForWeek tOcc gOcc vT vGg (weekDatesSerial l.date)
    let vT2 := match found with
      | some s => mapAdd vT s.date s.pairNumber
      | none => vT
    let vG2 := match found with
      | some s => asetUpdate vG l.group (mapAdd vGg s.date s.pairNumber)
      | none => vG
    ⟨mkResultLesson l, found⟩ :: allocGo tOcc gs rest vT2 vG2

/-- The slot-search core of `handleFindSlotsForLessons`: build the teacher
occupied map from the batch itself, then run the loop with empty ledgers. -/
def allocateSlots (lessons : List Lesson) (gs : List (String × GroupSchedule)) :
    List AllocResult :=
  allocGo (buildTeacherOccupied lessons) gs lessons [] []

/-- The (date, period) pairs assigned in a list of allocator results: starting
from empty ledgers, this is exactly the content of the virtual teacher ledger
after those results were produced. -/
def assignedPairs (rs : List AllocResult) : List (Int × Nat) :=
  rs.filterMap (fun r => r.slot.map (fun s => (s.date, s.pairNumber)))

/-- The (date, period) pairs assigned to lessons of group `g` in a list of
allocator results: starting from empty ledgers, this is exactly the content of
the virtual ledger of group `g` after those results were produced. -/
def assignedPairsFor (g : String) (rs : List AllocResult) : List (Int × Nat) :=
  rs.filterMap (fun r =>
    if r.lesson.group = g then r.slot.map (fun s => (s.date, s.pairNumber)) else none)

/-!  Lemmas about the calendar utilities. -/

lemma dateRangeGo_eq (w : Bool) (e : Int) :
    ∀ (fuel : Nat) (s : Int), fuel = (e + 1 - s).toNat →
      dateRangeGo w e fuel s =
        ((List.range fuel).map (fun (i : Nat) => s + (i : Int))).filter (isRangeDay w) := by
  intro fuel
  induction fuel with
  | zero => intro s _; rfl
  | succ fuel ih =>
      intro s h
      have hse : s ≤ e := by omega
      rw [dateRangeGo, if_pos hse, ih (s + 1) (by omega), List.range_succ_eq_map,
        List.map_cons, List.filter_cons, List.map_map]
      have hm : ((fun (i : Nat) => s + (i : Int)) ∘ Nat.succ) =
          (fun (i : Nat) => (s + 1) + (i : Int)) := by
        funext i
        simp only [Function.comp_apply]
        push_cast
        ring
      rw [hm]
      simp only [Nat.cast_zero, add_zero]
      cases hd : isRangeDay w s <;> simp [hd]

lemma mem_dateRangeSerial (s e d : Int) (w : Bool) :
    d ∈ dateRangeSerial s e w ↔ s ≤ d ∧ d ≤ e ∧ isRangeDay w d = true := by
  unfold dateRangeSerial
  rw [dateRangeGo_eq w e _ s rfl]
  simp only [List.mem_filter, List.mem_map, List.mem_range]
  constructor
  · rintro ⟨⟨i, hi, hid⟩, hday⟩
    refine ⟨by omega, by omega, hday⟩
  · rintro ⟨h1, h2, hday⟩
    refine ⟨⟨(d - s).toNat, by omega, by omega⟩, hday⟩

lemma dateRangeSerial_sorted (s e : Int) (w : Bool) :
    List.Pairwise (fun a b => a < b) (dateRangeSerial s e w) := by
  unfold dateRangeSerial
  rw [dateRangeGo_eq w e _ s rfl]
  refine List.Pairwise.filter _ ?_
  rw [List.pairwise_map]
  exact (List.pairwise_lt_range (e + 1 - s).toNat).imp (fun {a b} hab => by omega)

lemma dateRangeSerial_empty_of_lt (s e : Int) (w : Bool) (h : e < s) :
    dateRangeSerial s e w = [] := by
  unfold dateRangeSerial
  have h0 : (e + 1 - s).toNat = 0 := by omega
  rw [h0]
  rfl

/-- C7: dateRange returns the ordered day-by-day sequence of ISO date strings
from start to end inclusive, omitting Saturdays and Sundays when
weekdaysOnly is true; an inverted range yields the empty list; and on
2026-02-09..2026-02-13 with weekdaysOnly it returns exactly those five
weekday strings. -/
theorem dateRange_correct :
    ∀ (s e : Int) (w : Bool),
      (dateRange s e w =
        (((List.range (e + 1 - s).toNat).map (fun (i : Nat) => s + (i : Int))).filter
          (fun d => !w || (decide (dow d ≠ 0) && decide (dow d ≠ 6)))).map formatDate)
      ∧ (e < s → dateRange s e w = [])
      ∧ dateRange (daysFromCivil 2026 2 9) (daysFromCivil 2026 2 13) true =
          ["2026-02-09", "2026-02-10", "2026-02-11", "2026-02-12", "2026-02-13"] := by
  intro s e w
  refine ⟨?_, ?_, by decide⟩
  · unfold dateRange dateRangeSerial
    rw [dateRangeGo_eq w e _ s rfl]
    rfl
  · intro h
    unfold dateRange
    rw [dateRangeSerial_empty_of_lt s e w h]
    rfl

theorem dateRange_correct_witness : dateRange 5 2 true = [] :=
  (dateRange_correct 5 2 true).2.1 (by decide)

/-- C8: getWeekDates returns exactly five dates in order, the Monday through
Friday of the week containing the date, where the Monday is the date minus
((dow + 6) mod 7) days. -/
theorem getWeekDates_correct :
    ∀ z : Int,
      getWeekDates z = (weekDatesSerial z).map formatDate
      ∧ weekDatesSerial z =
          [z - ((dow z + 6) % 7), z - ((dow z + 6) % 7) + 1, z - ((dow z + 6) % 7) + 2,
           z - ((dow z + 6) % 7) + 3, z - ((dow z + 6) % 7) + 4]
      ∧ (getWeekDates z).length = 5
      ∧ dow (weekMonday z) = 1
      ∧ dow (weekMonday z + 1) = 2
      ∧ dow (weekMonday z + 2) = 3
      ∧ dow (weekMonday z + 3) = 4
      ∧ dow (weekMonday z + 4) = 5
      ∧ weekMonday z ≤ z ∧ z ≤ weekMonday z + 6 := by
  intro z
  refine ⟨rfl, rfl, rfl, ?_, ?_, ?_, ?_, ?_, ?_, ?_⟩ <;>
    (unfold weekMonday dow; omega)

lemma jan4_eq_jan1_add_three (y : Int) : daysFromCivil y 1 4 = daysFromCivil y 1 1 + 3 := by
  unfold daysFromCivil
  norm_num
  omega

/-- C6: getISOWeek agrees with ISO-8601 week numbering (weeks start Monday,
week 1 is the week containing the first Thursday of the year) on every date;
in particular it maps 2026-01-01 to 2026-W01, and the week of 2026-01-01
does contain the first Thursday of 2026. -/
theorem isoWeekKey_matches_iso :
    (∀ z : Int, getISOWeek z = isoWeekKeySpec z)
    ∧ getISOWeek (daysFromCivil 2026 1 1) = "2026-W01"
    ∧ thursdayOfWeek (daysFromCivil 2026 1 1) = firstThursdayOfYear 2026 := by
  refine ⟨?_, by decide, by decide⟩
  intro z
  show
    (toString (yearOf (z + 3 - ((dow z + 6) % 7))) ++ "-W" ++
      padStart2 (toString (1 + mathRound7th
        (z + 3 - ((dow z + 6) % 7) -
          daysFromCivil (yearOf (z + 3 - ((dow z + 6) % 7))) 1 4 - 3 +
          ((dow (daysFromCivil (yearOf (z + 3 - ((dow z + 6) % 7))) 1 4) + 6) % 7))))) =
    (toString (yearOf (z + 3 - ((dow z + 6) % 7))) ++ "-W" ++
      padStart2 (toString (1 +
        (z + 3 - ((dow z + 6) % 7) -
          (daysFromCivil (yearOf (z + 3 - ((dow z + 6) % 7))) 1 1 +
            (4 - dow (daysFromCivil (yearOf (z + 3 - ((dow z + 6) % 7))) 1 1)) % 7)) / 7)))
  rw [jan4_eq_jan1_add_three]
  generalize daysFromCivil (yearOf (z + 3 - ((dow z + 6) % 7))) 1 1 = j1
  have h :
      1 + mathRound7th (z + 3 - ((dow z + 6) % 7) - (j1 + 3) - 3 + ((dow (j1 + 3) + 6) % 7)) =
      1 + (z + 3 - ((dow z + 6) % 7) - (j1 + (4 - dow j1) % 7)) / 7 := by
    unfold mathRound7th dow
    omega
  rw [h]

/-!  Lemmas about the occupancy maps. -/

lemma mem_setAdd (s : List Nat) (v p : Nat) : p ∈ setAdd s v ↔ p = v ∨ p ∈ s := by
  unfold setAdd
  split
  · rename_i hv
    constructor
    · exact fun h => Or.inr h
    · rintro (rfl | h)
      · exact hv
      · exact h
  · simp [List.mem_append, or_comm]

lemma alookup_mapAdd {κ : Type} [DecidableEq κ] (m : List (κ × List Nat)) (k k2 : κ)
    (v : Nat) :
    alookup (mapAdd m k v) k2 =
      if k2 = k then some (setAdd (occGet m k) v) else alookup m k2 := by
  induction m with
  | nil =>
      by_cases h : k2 = k
      · subst h; simp [mapAdd, alookup, occGet, setAdd]
      · have h' : ¬k = k2 := fun hc => h hc.symm
        simp [mapAdd, alookup, occGet, h, h']
  | cons kv rest ih =>
      obtain ⟨k3, s⟩ := kv
      by_cases h3 : k3 = k
      · subst h3
        by_cases h2 : k2 = k3
        · subst h2; simp [mapAdd, alookup, occGet]
        · have h2' : ¬k3 = k2 := fun hc => h2 hc.symm
          simp [mapAdd, alookup, occGet, h2, h2']
      · by_cases h2 : k3 = k2
        · subst h2
          have h3' : ¬k3 = k := h3
          have h3'' : ¬k = k3 := fun hc => h3 hc.symm
          simp [mapAdd, alookup, occGet, h3', h3'']
        · have h2' : ¬k2 = k3 := fun hc => h2 hc.symm
          simp only [mapAdd, if_neg h3, alookup, if_neg h2, ih]
          by_cases hk : k2 = k
          · simp only [if_pos hk, occGet, alookup, if_neg h3]
          · simp only [if_neg hk]

lemma occGet_mapAdd {κ : Type} [DecidableEq κ] (m : List (κ × List Nat)) (k k2 : κ)
    (v : Nat) :
    occGet (mapAdd m k v) k2 = if k2 = k then setAdd (occGet m k) v else occGet m k2 := by
  unfold occGet
  rw [alookup_mapAdd]
  by_cases h : k2 = k
  · simp [h, occGet]
  · simp [h, occGet]

lemma mem_occGet_mapAdd {κ : Type} [DecidableEq κ] (m : List (κ × List Nat)) (k k2 : κ)
    (v p : Nat) :
    p ∈ occGet (mapAdd m k v) k2 ↔ (k2 = k ∧ p = v) ∨ p ∈ occGet m k2 := by
  rw [occGet_mapAdd]
  by_cases h : k2 = k
  · subst h
    simp [mem_setAdd]
  · simp [h]

lemma alookup_isSome {κ α : Type} [DecidableEq κ] (g : List (κ × α)) (k : κ) :
    (alookup g k).isSome = true ↔ k ∈ g.map Prod.fst := by
  induction g with
  | nil => simp [alookup]
  | cons kv rest ih =>
      obtain ⟨k2, v⟩ := kv
      by_cases h : k2 = k
      · subst h; simp [alookup]
      · have h' : ¬k = k2 := fun hc => h hc.symm
        simp [alookup, h, h', ih]

lemma mem_keys_mapAdd {κ : Type} [DecidableEq κ] (m : List (κ × List Nat)) (k k2 : κ)
    (v : Nat) :
    k2 ∈ (mapAdd m k v).map Prod.fst ↔ k2 = k ∨ k2 ∈ m.map Prod.fst := by
  rw [← alookup_isSome, alookup_mapAdd]
  by_cases h : k2 = k
  · simp [h]
  · simp [h, alookup_isSome]

lemma keys_buildCfg_go (entries : List CmpEntry) :
    ∀ (g : List (String × List Nat)) (k : String),
      (k ∈ (entries.foldl
        (fun m e => if jsTruthy e.date then mapAdd m (jsKey e.date) e.pairNumber else m)
        g).map Prod.fst) ↔
      k ∈ g.map Prod.fst ∨ ∃ e ∈ entries, jsTruthy e.date ∧ jsKey e.date = k := by
  induction entries with
  | nil => simp
  | cons e rest ih =>
      intro g k
      rw [List.foldl_cons, ih]
      by_cases he : jsTruthy e.date
      · rw [if_pos he, mem_keys_mapAdd]
        constructor
        · rintro ((rfl | hg) | hrest)
          · exact Or.inr ⟨e, List.mem_cons_self .., he, rfl⟩
          · exact Or.inl hg
          · obtain ⟨e2, he2, h1, h2⟩ := hrest
            exact Or.inr ⟨e2, List.mem_cons_of_mem _ he2, h1, h2⟩
        · rintro (hg | ⟨e2, he2, h1, h2⟩)
          · exact Or.inl (Or.inr hg)
          · rcases List.mem_cons.mp he2 with rfl | he3
            · exact Or.inl (Or.inl h2.symm)
            · exact Or.inr ⟨e2, he3, h1, h2⟩
      · rw [if_neg he]
        constructor
        · rintro (hg | ⟨e2, he2, h1, h2⟩)
          · exact Or.inl hg
          · exact Or.inr ⟨e2, List.mem_cons_of_mem _ he2, h1, h2⟩
        · rintro (hg | ⟨e2, he2, h1, h2⟩)
          · exact Or.inl hg
          · rcases List.mem_cons.mp he2 with rfl | he3
            · exact absurd h1 he
            · exact Or.inr ⟨e2, he3, h1, h2⟩

lemma occGet_buildCfg_go (entries : List CmpEntry) :
    ∀ (g : List (String × List Nat)) (k : String) (p : Nat),
      (p ∈ occGet (entries.foldl
        (fun m e => if jsTruthy e.date then mapAdd m (jsKey e.date) e.pairNumber else m)
        g) k) ↔
      p ∈ occGet g k ∨ ∃ e ∈ entries, jsTruthy e.date ∧ jsKey e.date = k ∧ e.pairNumber = p := by
  induction entries with
  | nil => simp
  | cons e rest ih =>
      intro g k p
      rw [List.foldl_cons, ih]
      by_cases he : jsTruthy e.date
      · rw [if_pos he, mem_occGet_mapAdd]
        constructor
        · rintro ((⟨rfl, rfl⟩ | hg) | hrest)
          · exact Or.inr ⟨e, List.mem_cons_self .., he, rfl, rfl⟩
          · exact Or.inl hg
          · obtain ⟨e2, he2, h1, h2, h3⟩ := hrest
            exact Or.inr ⟨e2, List.mem_cons_of_mem _ he2, h1, h2, h3⟩
        · rintro (hg | ⟨e2, he2, h1, h2, h3⟩)
          · exact Or.inl (Or.inr hg)
          · rcases List.mem_cons.mp he2 with rfl | he3
            · exact Or.inl (Or.inl ⟨h2.symm, h3.symm⟩)
            · exact Or.inr ⟨e2, he3, h1, h2, h3⟩
      · rw [if_neg he]
        constructor
        · rintro (hg | ⟨e2, he2, h1, h2, h3⟩)
          · exact Or.inl hg
          · exact Or.inr ⟨e2, List.mem_cons_of_mem _ he2, h1, h2, h3⟩
        · rintro (hg | ⟨e2, he2, h1, h2, h3⟩)
          · exact Or.inl hg
          · rcases List.mem_cons.mp he2 with rfl | he3
            · exact absurd h1 he
            · exact Or.inr ⟨e2, he3, h1, h2, h3⟩

lemma truthy_key_iff (e : CmpEntry) (k : String) :
    (jsTruthy e.date ∧ jsKey e.date = k) ↔ (e.date = some k ∧ k ≠ "") := by
  cases hd : e.date with
  | none => simp [jsTruthy, jsKey]
  | some s =>
      simp only [jsTruthy, jsKey, Option.some.injEq, decide_eq_true_eq]
      constructor
      · rintro ⟨h1, rfl⟩
        exact ⟨rfl, h1⟩
      · rintro ⟨rfl, h2⟩
        exact ⟨h2, rfl⟩

/-- C4 (amended): the config.js buildOccupiedMap, the one the allocator uses,
has as keys exactly the non-missing (truthy) dates of its input entries, and
an entry with a missing date contributes no key and no period. -/
theorem buildOccupiedMapCfg_skips_missing :
    ∀ (entries : List CmpEntry) (k : String) (p : Nat),
      (k ∈ (buildOccupiedMapCfg entries).map Prod.fst ↔
        ∃ e ∈ entries, e.date = some k ∧ k ≠ "")
      ∧ (p ∈ occGet (buildOccupiedMapCfg entries) k ↔
        ∃ e ∈ entries, e.date = some k ∧ k ≠ "" ∧ e.pairNumber = p) := by
  intro entries k p
  constructor
  · rw [buildOccupiedMapCfg, keys_buildCfg_go]
    simp only [List.map_nil, List.not_mem_nil, false_or]
    constructor
    · rintro ⟨e, he, h1, h2⟩
      exact ⟨e, he, (truthy_key_iff e k).mp ⟨h1, h2⟩⟩
    · rintro ⟨e, he, h1, h2⟩
      exact ⟨e, he, (truthy_key_iff e k).mpr ⟨h1, h2⟩⟩
  · rw [buildOccupiedMapCfg, occGet_buildCfg_go]
    simp only [occGet, alookup, Option.getD_none, List.not_mem_nil, false_or]
    constructor
    · rintro ⟨e, he, h1, h2, h3⟩
      obtain ⟨g1, g2⟩ := (truthy_key_iff e k).mp ⟨h1, h2⟩
      exact ⟨e, he, g1, g2, h3⟩
    · rintro ⟨e, he, h1, h2, h3⟩
      obtain ⟨g1, g2⟩ := (truthy_key_iff e k).mpr ⟨h1, h2⟩
      exact ⟨e, he, g1, g2, h3⟩

theorem buildOccupiedMapCfg_skips_missing_witness :
    "2026-02-09" ∈ (buildOccupiedMapCfg [⟨some "2026-02-09", 1⟩]).map Prod.fst :=
  (buildOccupiedMapCfg_skips_missing [⟨some "2026-02-09", 1⟩] "2026-02-09" 1).1.mpr
    ⟨⟨some "2026-02-09", 1⟩, by decide, by decide, by decide⟩

/-- C4 (counterexample): the comparator buildOccupiedMap in part_001 does not
skip missing dates: an entry whose date is absent contributes the coerced
object key "undefined", although no entry of the input has that date. -/
theorem buildOccupiedMapCmp_keeps_missing :
    "undefined" ∈ (buildOccupiedMapCmp [⟨none, 1⟩]).map Prod.fst
    ∧ ∀ e ∈ ([⟨none, 1⟩] : List CmpEntry), e.date ≠ some "undefined" := by
  decide

/-!  Lemmas about the suggestion reducer. -/

lemma firstPerKey_cons (f : FreeSlot → String) (seen : List String) (a : FreeSlot)
    (l : List FreeSlot) :
    firstPerKey f seen (a :: l) =
      if f a ∈ seen then firstPerKey f seen l else a :: firstPerKey f (f a :: seen) l := rfl

lemma firstPerKey_congr (key : FreeSlot → String) :
    ∀ (l : List FreeSlot) (s1 s2 : List String), (∀ k, k ∈ s1 ↔ k ∈ s2) →
      firstPerKey key s1 l = firstPerKey key s2 l := by
  intro l
  induction l with
  | nil => intro s1 s2 _; rfl
  | cons a l ih =>
      intro s1 s2 h
      unfold firstPerKey
      by_cases ha : key a ∈ s1
      · rw [if_pos ha, if_pos ((h _).mp ha)]
        exact ih s1 s2 h
      · rw [if_neg ha, if_neg (fun hc => ha ((h _).mpr hc))]
        refine congrArg (a :: ·) (ih _ _ ?_)
        intro k
        simp [h k]

lemma foldl_insert_snd (f : FreeSlot → String) :
    ∀ (l : List FreeSlot) (g : List (String × FreeSlot)),
      (l.foldl (fun g s => insertIfAbsent g (f s) s) g).map Prod.snd =
        g.map Prod.snd ++ firstPerKey f (g.map Prod.fst) l := by
  intro l
  induction l with
  | nil => intro g; simp [firstPerKey]
  | cons a l ih =>
      intro g
      rw [List.foldl_cons]
      by_cases h : (alookup g (f a)).isSome = true
      · have hmem : f a ∈ g.map Prod.fst := (alookup_isSome g (f a)).mp h
        have hstep : insertIfAbsent g (f a) a = g := by
          unfold insertIfAbsent
          rw [if_pos h]
        rw [hstep, ih g, firstPerKey_cons, if_pos hmem]
      · have hmem : f a ∉ g.map Prod.fst := fun hc => h ((alookup_isSome g (f a)).mpr hc)
        have hstep : insertIfAbsent g (f a) a = g ++ [(f a, a)] := by
          unfold insertIfAbsent
          rw [if_neg h]
        rw [hstep, ih (g ++ [(f a, a)]), firstPerKey_cons, if_neg hmem]
        rw [List.map_append, List.map_append]
        simp only [List.map_cons, List.map_nil]
        have hseen : firstPerKey f (g.map Prod.fst ++ [f a]) l =
            firstPerKey f (f a :: g.map Prod.fst) l := by
          refine firstPerKey_congr f l _ _ ?_
          intro k
          simp [or_comm]
        rw [hseen]
        simp

lemma firstPerKey_first (f : FreeSlot → String) :
    ∀ (l : List FreeSlot) (seen : List String) (s : FreeSlot), s ∈ firstPerKey f seen l →
      f s ∉ seen ∧ l.find? (fun t => decide (f t = f s)) = some s := by
  intro l
  induction l with
  | nil => simp [firstPerKey]
  | cons a l ih =>
      intro seen s hs
      unfold firstPerKey at hs
      by_cases ha : f a ∈ seen
      · rw [if_pos ha] at hs
        obtain ⟨h1, h2⟩ := ih seen s hs
        refine ⟨h1, ?_⟩
        have hne : decide (f a = f s) = false := by
          simp only [decide_eq_false_iff_not]
          intro hEq
          exact h1 (hEq ▸ ha)
        rw [List.find?_cons, hne]
        exact h2
      · rw [if_neg ha] at hs
        rcases List.mem_cons.mp hs with rfl | hs2
        · refine ⟨ha, ?_⟩
          have : decide (f s = f s) = true := by simp
          rw [List.find?_cons, this]
        · obtain ⟨h1, h2⟩ := ih _ s hs2
          have hsa : f s ≠ f a := fun hEq => h1 (by rw [hEq]; exact List.mem_cons_self ..)
          refine ⟨fun hc => h1 (List.mem_cons_of_mem _ hc), ?_⟩
          have hne : decide (f a = f s) = false := by
            simp only [decide_eq_false_iff_not]
            exact fun hEq => hsa hEq.symm
          rw [List.find?_cons, hne]
          exact h2

lemma firstPerKey_covers (f : FreeSlot → String) :
    ∀ (l : List FreeSlot) (seen : List String) (t : FreeSlot), t ∈ l →
      f t ∈ seen ∨ ∃ s ∈ firstPerKey f seen l, f s = f t := by
  intro l
  induction l with
  | nil => simp
  | cons a l ih =>
      intro seen t ht
      unfold firstPerKey
      by_cases ha : f a ∈ seen
      · rw [if_pos ha]
        rcases List.mem_cons.mp ht with rfl | ht2
        · exact Or.inl ha
        · exact ih seen t ht2
      · rw [if_neg ha]
        rcases List.mem_cons.mp ht with rfl | ht2
        · exact Or.inr ⟨t, List.mem_cons_self .., rfl⟩
        · rcases ih (f a :: seen) t ht2 with hseen | ⟨s, hs, hfs⟩
          · rcases List.mem_cons.mp hseen with hEq | hseen2
            · exact Or.inr ⟨a, List.mem_cons_self .., hEq.symm⟩
            · exact Or.inl hseen2
          · exact Or.inr ⟨s, List.mem_cons_of_mem _ hs, hfs⟩

lemma firstPerKey_nodup (f : FreeSlot → String) :
    ∀ (l : List FreeSlot) (seen : List String),
      ((firstPerKey f seen l).map f).Nodup := by
  intro l
  induction l with
  | nil => intro seen; simp [firstPerKey]
  | cons a l ih =>
      intro seen
      unfold firstPerKey
      by_cases ha : f a ∈ seen
      · rw [if_pos ha]
        exact ih seen
      · rw [if_neg ha]
        rw [List.map_cons, List.nodup_cons]
        refine ⟨?_, ih (f a :: seen)⟩
        intro hc
        obtain ⟨s, hs, hfs⟩ := List.mem_map.mp hc
        have := (firstPerKey_first f l (f a :: seen) s hs).1
        exact this (by rw [hfs]; exact List.mem_cons_self ..)

lemma suggestSlots_fpw_eq (slots : List FreeSlot) :
    suggestSlots slots "first-per-week" =
      firstPerKey (fun s => getISOWeek s.date) [] slots := by
  unfold suggestSlots
  rw [if_neg (by decide)]
  have hkey : (fun (g : List (String × FreeSlot)) (slot : FreeSlot) =>
      insertIfAbsent g (slotKey "first-per-week" slot) slot) =
      (fun g slot => insertIfAbsent g (getISOWeek slot.date) slot) := by
    funext g slot
    rfl
  rw [hkey, foldl_insert_snd (fun s => getISOWeek s.date) slots []]
  rfl

/-- C5: suggestSlots with strategy "all" is the identity; with strategy
"first-per-week" every returned slot is the first slot of the input carrying
its ISO week key, every week key occurring in the input is represented, and
no week key is represented twice. -/
theorem suggestSlots_correct :
    ∀ slots : List FreeSlot,
      suggestSlots slots "all" = slots
      ∧ (∀ s ∈ suggestSlots slots "first-per-week",
          slots.find? (fun t => decide (getISOWeek t.date = getISOWeek s.date)) = some s)
      ∧ (∀ t ∈ slots, ∃ s ∈ suggestSlots slots "first-per-week",
          getISOWeek s.date = getISOWeek t.date)
      ∧ ((suggestSlots slots "first-per-week").map (fun s => getISOWeek s.date)).Nodup := by
  intro slots
  refine ⟨rfl, ?_, ?_, ?_⟩
  · intro s hs
    rw [suggestSlots_fpw_eq] at hs
    exact (firstPerKey_first (fun s => getISOWeek s.date) slots [] s hs).2
  · intro t ht
    rw [suggestSlots_fpw_eq]
    rcases firstPerKey_covers (fun s => getISOWeek s.date) slots [] t ht with hseen | hex
    · exact absurd hseen (List.not_mem_nil _)
    · exact hex
  · rw [suggestSlots_fpw_eq]
    exact firstPerKey_nodup (fun s => getISOWeek s.date) slots []

theorem suggestSlots_correct_witness :
    (mkFreeSlot (daysFromCivil 2026 2 9) ⟨1, "08:00", "09:20"⟩) ∈
      suggestSlots [mkFreeSlot (daysFromCivil 2026 2 9) ⟨1, "08:00", "09:20"⟩] "first-per-week"
    ∧ List.find?
        (fun t => decide (getISOWeek t.date =
          getISOWeek (mkFreeSlot (daysFromCivil 2026 2 9) ⟨1, "08:00", "09:20"⟩).date))
        [mkFreeSlot (daysFromCivil 2026 2 9) ⟨1, "08:00", "09:20"⟩] =
      some (mkFreeSlot (daysFromCivil 2026 2 9) ⟨1, "08:00", "09:20"⟩) :=
  ⟨by decide,
   (suggestSlots_correct [mkFreeSlot (daysFromCivil 2026 2 9) ⟨1, "08:00", "09:20"⟩]).2.1
     (mkFreeSlot (daysFromCivil 2026 2 9) ⟨1, "08:00", "09:20"⟩) (by decide)⟩

/-- C10: for any strategy other than "all", "first-per-week" and
"first-per-month", every slot falls into the single bucket of the undefined
grouping key, so a non-empty input collapses to exactly its first slot. -/
theorem suggestSlots_unknown_strategy :
    ∀ (strategy : String) (s0 : FreeSlot) (rest : List FreeSlot),
      strategy ≠ "all" → strategy ≠ "first-per-week" → strategy ≠ "first-per-month" →
      suggestSlots (s0 :: rest) strategy = [s0] := by
  intro strategy s0 rest h1 h2 h3
  have hkey : ∀ s : FreeSlot, slotKey strategy s = "undefined" := by
    intro s
    unfold slotKey
    rw [if_neg h2, if_neg h3]
  unfold suggestSlots
  rw [if_neg h1, List.foldl_cons, hkey s0]
  have h0 : insertIfAbsent [] "undefined" s0 = [("undefined", s0)] := rfl
  rw [h0]
  have hstay : ∀ l : List FreeSlot,
      List.foldl (fun g slot => insertIfAbsent g (slotKey strategy slot) slot)
        [("undefined", s0)] l = [("undefined", s0)] := by
    intro l
    induction l with
    | nil => rfl
    | cons a l ih =>
        rw [List.foldl_cons, hkey a]
        have hskip : insertIfAbsent [("undefined", s0)] "undefined" a =
            [("undefined", s0)] := rfl
        rw [hskip, ih]
  rw [hstay]
  rfl

theorem suggestSlots_unknown_strategy_witness :
    suggestSlots
      [mkFreeSlot (daysFromCivil 2026 2 9) ⟨1, "08:00", "09:20"⟩,
       mkFreeSlot (daysFromCivil 2026 2 16) ⟨2, "09:30", "10:50"⟩] "first-per-day" =
      [mkFreeSlot (daysFromCivil 2026 2 9) ⟨1, "08:00", "09:20"⟩] :=
  suggestSlots_unknown_strategy "first-per-day"
    (mkFreeSlot (daysFromCivil 2026 2 9) ⟨1, "08:00", "09:20"⟩)
    [mkFreeSlot (daysFromCivil 2026 2 16) ⟨2, "09:30", "10:50"⟩]
    (by decide) (by decide) (by decide)

/-!  Lemmas about the free-slot finder. -/

lemma mem_findFreeSlots (A B : Schedule) (df dt : Int) (sl : FreeSlot) :
    sl ∈ findFreeSlots A B df dt ↔
      ∃ d ∈ dateRangeSerial df dt true, ∃ p ∈ PAIR_TIMES,
        sl = mkFreeSlot d p
        ∧ p.number ∉ occGet (buildOccupiedMapCmp A.entries) (formatDate d)
        ∧ p.number ∉ occGet (buildOccupiedMapCmp B.entries) (formatDate d) := by
  unfold findFreeSlots
  simp only [List.mem_flatMap, List.mem_filterMap]
  constructor
  · rintro ⟨d, hd, p, hp, hps⟩
    by_cases hc : p.number ∈ occGet (buildOccupiedMapCmp A.entries) (formatDate d)
        ∨ p.number ∈ occGet (buildOccupiedMapCmp B.entries) (formatDate d)
    · rw [if_pos hc] at hps
      exact absurd hps (by simp)
    · rw [if_neg hc] at hps
      rw [not_or] at hc
      exact ⟨d, hd, p, hp, (Option.some.inj hps).symm, hc.1, hc.2⟩
  · rintro ⟨d, hd, p, hp, rfl, h1, h2⟩
    refine ⟨d, hd, p, hp, ?_⟩
    rw [if_neg (not_or.mpr ⟨h1, h2⟩)]

lemma filterMap_if_eq {α β : Type} (c : α → Prop) [DecidablePred c] (g : α → β)
    (l : List α) :
    (l.filterMap (fun p => if c p then none else some (g p))) =
      (l.filter (fun p => decide (¬c p))).map g := by
  induction l with
  | nil => rfl
  | cons a l ih =>
      by_cases h : c a
      · simp [h, ih]
      · simp [h, ih]

lemma pairwise_lex_flatMap (dates : List Int) (f : Int → List FreeSlot)
    (hd : List.Pairwise (fun a b => a < b) dates)
    (hdate : ∀ d, ∀ s ∈ f d, s.date = d)
    (hinner : ∀ d, List.Pairwise (fun a b => a.pairNumber < b.pairNumber) (f d)) :
    List.Pairwise
      (fun a b => a.date < b.date ∨ (a.date = b.date ∧ a.pairNumber < b.pairNumber))
      (dates.flatMap f) := by
  induction dates with
  | nil => simp
  | cons d ds ih =>
      rw [List.flatMap_cons, List.pairwise_append]
      obtain ⟨hall, htail⟩ := List.pairwise_cons.mp hd
      refine ⟨?_, ih htail, ?_⟩
      · refine List.Pairwise.imp_of_mem ?_ (hinner d)
        intro a b ha hb hab
        exact Or.inr ⟨(hdate d a ha).trans (hdate d b hb).symm, hab⟩
      · intro a ha b hb
        obtain ⟨d2, hd2, hbd2⟩ := List.mem_flatMap.mp hb
        left
        rw [hdate d a ha, hdate d2 b hbd2]
        exact hall d2 hd2

lemma findFreeSlots_sorted (A B : Schedule) (df dt : Int) :
    List.Pairwise
      (fun a b => a.date < b.date ∨ (a.date = b.date ∧ a.pairNumber < b.pairNumber))
      (findFreeSlots A B df dt) := by
  unfold findFreeSlots
  refine pairwise_lex_flatMap _ _ (dateRangeSerial_sorted df dt true) ?_ ?_
  · intro d s hs
    obtain ⟨p, _, hps⟩ := List.mem_filterMap.mp hs
    by_cases hc : p.number ∈ occGet (buildOccupiedMapCmp A.entries) (formatDate d)
        ∨ p.number ∈ occGet (buildOccupiedMapCmp B.entries) (formatDate d)
    · rw [if_pos hc] at hps
      exact absurd hps (by simp)
    · rw [if_neg hc] at hps
      rw [← Option.some.inj hps]
      rfl
  · intro d
    rw [filterMap_if_eq
      (fun p => p.number ∈ occGet (buildOccupiedMapCmp A.entries) (formatDate d)
        ∨ p.number ∈ occGet (buildOccupiedMapCmp B.entries) (formatDate d))
      (mkFreeSlot d) PAIR_TIMES]
    rw [List.pairwise_map]
    have hbase : List.Pairwise (fun a b : PairTime => a.number < b.number) PAIR_TIMES := by
      decide
    exact hbase.filter _

/-- C2: a (date, period) pair appears in the findFreeSlots output iff the
date is a weekday inside the inclusive range and the period is one of the 8
fixed periods and neither occupancy map contains it; the fixed periods are
1..8; the output is ordered by date then period; an inverted range yields
nothing; and an entry-less schedule contributes no occupancy at all. -/
theorem findFreeSlots_membership :
    ∀ (A B : Schedule) (df dt d : Int) (p : Nat),
      ((∃ sl ∈ findFreeSlots A B df dt, sl.date = d ∧ sl.pairNumber = p) ↔
        (df ≤ d ∧ d ≤ dt ∧ dow d ≠ 0 ∧ dow d ≠ 6
         ∧ p ∈ PAIR_TIMES.map (fun q => q.number)
         ∧ p ∉ occGet (buildOccupiedMapCmp A.entries) (formatDate d)
         ∧ p ∉ occGet (buildOccupiedMapCmp B.entries) (formatDate d)))
      ∧ PAIR_TIMES.map (fun q => q.number) = [1, 2, 3, 4, 5, 6, 7, 8]
      ∧ List.Pairwise
          (fun a b => a.date < b.date ∨ (a.date = b.date ∧ a.pairNumber < b.pairNumber))
          (findFreeSlots A B df dt)
      ∧ (dt < df → findFreeSlots A B df dt = [])
      ∧ (∀ (k : String) (q : Nat), q ∉ occGet (buildOccupiedMapCmp []) k) := by
  intro A B df dt d p
  refine ⟨?_, by decide, findFreeSlots_sorted A B df dt, ?_, ?_⟩
  · constructor
    · rintro ⟨sl, hsl, hdate, hpair⟩
      rw [mem_findFreeSlots] at hsl
      obtain ⟨d2, hd2, q, hq, rfl, h1, h2⟩ := hsl
      have hdd : d2 = d := hdate
      have hqq : q.number = p := hpair
      subst hdd
      subst hqq
      rw [mem_dateRangeSerial] at hd2
      obtain ⟨hge, hle, hday⟩ := hd2
      have hday2 : dow d2 ≠ 0 ∧ dow d2 ≠ 6 := by
        simpa [isRangeDay] using hday
      exact ⟨hge, hle, hday2.1, hday2.2, List.mem_map.mpr ⟨q, hq, rfl⟩, h1, h2⟩
    · rintro ⟨hge, hle, hd0, hd6, hpmem, h1, h2⟩
      obtain ⟨q, hq, hqn⟩ := List.mem_map.mp hpmem
      refine ⟨mkFreeSlot d q, ?_, rfl, hqn⟩
      rw [mem_findFreeSlots]
      refine ⟨d, ?_, q, hq, rfl, ?_, ?_⟩
      · rw [mem_dateRangeSerial]
        exact ⟨hge, hle, by simp [isRangeDay, hd0, hd6]⟩
      · rw [hqn]
        exact h1
      · rw [hqn]
        exact h2
  · intro h
    unfold findFreeSlots
    rw [dateRangeSerial_empty_of_lt df dt true h]
    rfl
  · intro k q
    simp [buildOccupiedMapCmp, occGet, alookup]

theorem findFreeSlots_membership_witness :
    ∃ sl ∈ findFreeSlots ⟨[⟨some "2026-02-09", 1⟩]⟩ ⟨[⟨some "2026-02-09", 2⟩]⟩
        (daysFromCivil 2026 2 9) (daysFromCivil 2026 2 9),
      sl.date = daysFromCivil 2026 2 9 ∧ sl.pairNumber = 3 :=
  (findFreeSlots_membership ⟨[⟨some "2026-02-09", 1⟩]⟩ ⟨[⟨some "2026-02-09", 2⟩]⟩
      (daysFromCivil 2026 2 9) (daysFromCivil 2026 2 9) (daysFromCivil 2026 2 9) 3).1.mpr
    (by decide)

/-- C9: findFreeSlots is symmetric in its two schedule arguments. -/
theorem findFreeSlots_symm :
    ∀ (A B : Schedule) (df dt : Int), findFreeSlots A B df dt = findFreeSlots B A df dt := by
  intro A B df dt
  unfold findFreeSlots
  refine congrArg (List.flatMap (dateRangeSerial df dt true)) (funext fun d => ?_)
  refine congrArg (fun f => List.filterMap f PAIR_TIMES) (funext fun p => ?_)
  exact if_congr (or_comm ..) rfl rfl

/-!  Lemmas about the allocator. -/

lemma findSlotForWeek_some (tOcc gOcc vT vG : List (Int × List Nat)) :
    ∀ (dates : List Int) (s : FoundSlot),
      findSlotForWeek tOcc gOcc vT vG dates = some s →
      s.pairNumber ∉ occGet tOcc s.date ∧ s.pairNumber ∉ occGet gOcc s.date
      ∧ s.pairNumber ∉ occGet vT s.date ∧ s.pairNumber ∉ occGet vG s.date := by
  intro dates
  induction dates with
  | nil => intro s h; exact absurd h (by simp [findSlotForWeek])
  | cons d ds ih =>
      intro s h
      rw [findSlotForWeek, List.findSome?_cons] at h
      cases hf : (PAIR_TIMES.find? (pairFreeAt tOcc gOcc vT vG d)).map (mkFound d) with
      | some b =>
          rw [hf] at h
          obtain rfl : b = s := Option.some.inj h
          obtain ⟨p, hp, hpb⟩ := Option.map_eq_some'.mp hf
          have hfree := List.find?_some hp
          unfold pairFreeAt at hfree
          simp only [Bool.and_eq_true, decide_eq_true_eq] at hfree
          rw [← hpb]
          exact ⟨hfree.1.1.1, hfree.1.1.2, hfree.1.2, hfree.2⟩
      | none =>
          rw [hf] at h
          exact ih s h

lemma findSlotForWeek_eq_none_iff (tOcc gOcc vT vG : List (Int × List Nat)) :
    ∀ dates : List Int,
      findSlotForWeek tOcc gOcc vT vG dates = none ↔
      ∀ d ∈ dates, ∀ p ∈ PAIR_TIMES,
        p.number ∈ occGet tOcc d ∨ p.number ∈ occGet gOcc d
        ∨ p.number ∈ occGet vT d ∨ p.number ∈ occGet vG d := by
  intro dates
  induction dates with
  | nil => simp [findSlotForWeek]
  | cons d ds ih =>
      rw [findSlotForWeek, List.findSome?_cons]
      constructor
      · intro h d2 hd2 p hp
        cases hf : (PAIR_TIMES.find? (pairFreeAt tOcc gOcc vT vG d)).map (mkFound d) with
        | some b =>
            rw [hf] at h
            exact absurd h (by simp)
        | none =>
            rw [hf] at h
            rcases List.mem_cons.mp hd2 with hEq | hd3
            · subst hEq
              have hfn := Option.map_eq_none'.mp hf
              have hblk := List.find?_eq_none.mp hfn p hp
              unfold pairFreeAt at hblk
              simp only [Bool.and_eq_true, decide_eq_true_eq] at hblk
              tauto
            · exact (ih.mp h) d2 hd3 p hp
      · intro h
        have hfn : PAIR_TIMES.find? (pairFreeAt tOcc gOcc vT vG d) = none := by
          rw [List.find?_eq_none]
          intro p hp
          have hblock := h d (List.mem_cons_self ..) p hp
          unfold pairFreeAt
          simp only [Bool.and_eq_true, decide_eq_true_eq]
          tauto
        rw [hfn]
        exact ih.mpr (fun d2 hd2 p hp => h d2 (List.mem_cons_of_mem _ hd2) p hp)

lemma allocGo_slot_not_vT (tOcc : List (Int × List Nat)) (gs : List (String × GroupSchedule)) :
    ∀ (lessons : List Lesson) (vT : List (Int × List Nat))
      (vG : List (String × List (Int × List Nat))),
      ∀ r ∈ allocGo tOcc gs lessons vT vG, ∀ s, r.slot = some s →
        s.pairNumber ∉ occGet vT s.date := by
  intro lessons
  induction lessons with
  | nil =>
      intro vT vG r hr
      exact absurd hr (by simp [allocGo])
  | cons l rest ih =>
      intro vT vG r hr s hs
      rcases List.mem_cons.mp hr with rfl | hr2
      · have hs2 : findSlotForWeek tOcc (groupOccFor gs l.group) vT
            ((alookup vG l.group).getD []) (weekDatesSerial l.date) = some s := hs
        exact (findSlotForWeek_some _ _ _ _ _ s hs2).2.2.1
      · cases hfind : findSlotForWeek tOcc (groupOccFor gs l.group) vT
            ((alookup vG l.group).getD []) (weekDatesSerial l.date) with
        | none =>
            rw [hfind] at hr2
            exact ih _ _ r hr2 s hs
        | some s0 =>
            rw [hfind] at hr2
            have h2 := ih _ _ r hr2 s hs
            intro hc
            exact h2 ((mem_occGet_mapAdd vT s0.date s.date s0.pairNumber s.pairNumber).mpr
              (Or.inr hc))

lemma allocGo_pairwise (tOcc : List (Int × List Nat)) (gs : List (String × GroupSchedule)) :
    ∀ (lessons : List Lesson) (vT : List (Int × List Nat))
      (vG : List (String × List (Int × List Nat))),
      List.Pairwise
        (fun r1 r2 => ∀ s1 s2, r1.slot = some s1 → r2.slot = some s2 →
          (s1.date, s1.pairNumber) ≠ (s2.date, s2.pairNumber))
        (allocGo tOcc gs lessons vT vG) := by
  intro lessons
  induction lessons with
  | nil => intro vT vG; simp [allocGo]
  | cons l rest ih =>
      intro vT vG
      rw [allocGo, List.pairwise_cons]
      constructor
      · intro r2 hr2 s1 s2 hs1 hs2
        cases hfind : findSlotForWeek tOcc (groupOccFor gs l.group) vT
            ((alookup vG l.group).getD []) (weekDatesSerial l.date) with
        | none =>
            have hs1' : findSlotForWeek tOcc (groupOccFor gs l.group) vT
                ((alookup vG l.group).getD []) (weekDatesSerial l.date) = some s1 := hs1
            rw [hfind] at hs1'
            exact absurd hs1' (by simp)
        | some s0 =>
            have hs1' : findSlotForWeek tOcc (groupOccFor gs l.group) vT
                ((alookup vG l.group).getD []) (weekDatesSerial l.date) = some s1 := hs1
            rw [hfind] at hs1'
            have hEq : s0 = s1 := Option.some.inj hs1'
            rw [hfind] at hr2
            have h2 := allocGo_slot_not_vT tOcc gs rest _ _ r2 hr2 s2 hs2
            intro hc
            apply h2
            refine (mem_occGet_mapAdd vT s0.date s2.date s0.pairNumber s2.pairNumber).mpr
              (Or.inl ?_)
            have hcd : s1.date = s2.date := congrArg Prod.fst hc
            have hcp : s1.pairNumber = s2.pairNumber := congrArg Prod.snd hc
            rw [← hEq] at hcd hcp
            exact ⟨hcd.symm, hcp.symm⟩
      · cases hfind : findSlotForWeek tOcc (groupOccFor gs l.group) vT
            ((alookup vG l.group).getD []) (weekDatesSerial l.date) with
        | none => exact ih _ _
        | some s0 => exact ih _ _

lemma allocGo_length (tOcc : List (Int × List Nat)) (gs : List (String × GroupSchedule)) :
    ∀ (lessons : List Lesson) (vT : List (Int × List Nat))
      (vG : List (String × List (Int × List Nat))),
      (allocGo tOcc gs lessons vT vG).length = lessons.length := by
  intro lessons
  induction lessons with
  | nil => intro vT vG; rfl
  | cons l rest ih =>
      intro vT vG
      rw [allocGo, List.length_cons, List.length_cons, ih]

lemma allocGo_map_lesson (tOcc : List (Int × List Nat)) (gs : List (String × GroupSchedule)) :
    ∀ (lessons : List Lesson) (vT : List (Int × List Nat))
      (vG : List (String × List (Int × List Nat))),
      (allocGo tOcc gs lessons vT vG).map (fun r => r.lesson) =
        lessons.map mkResultLesson := by
  intro lessons
  induction lessons with
  | nil => intro vT vG; rfl
  | cons l rest ih =>
      intro vT vG
      rw [allocGo, List.map_cons, List.map_cons, ih]

lemma alookup_asetUpdate {κ α : Type} [DecidableEq κ] (m : List (κ × α)) (k k2 : κ)
    (v : α) :
    alookup (asetUpdate m k v) k2 = if k2 = k then some v else alookup m k2 := by
  induction m with
  | nil =>
      by_cases h : k2 = k
      · subst h; simp [asetUpdate, alookup]
      · have h' : ¬k = k2 := fun hc => h hc.symm
        simp [asetUpdate, alookup, h, h']
  | cons kv rest ih =>
      obtain ⟨k3, v3⟩ := kv
      by_cases h3 : k3 = k
      · subst h3
        by_cases h2 : k2 = k3
        · subst h2; simp [asetUpdate, alookup]
        · have h2' : ¬k3 = k2 := fun hc => h2 hc.symm
          simp [asetUpdate, alookup, h2, h2']
      · by_cases h2 : k3 = k2
        · subst h2
          simp [asetUpdate, alookup, h3]
        · have h2' : ¬k2 = k3 := fun hc => h2 hc.symm
          simp only [asetUpdate, if_neg h3, alookup, if_neg h2, ih]

lemma occGet_nil {κ : Type} [DecidableEq κ] (k : κ) :
    occGet ([] : List (κ × List Nat)) k = [] := rfl

lemma alookup_nil {κ α : Type} [DecidableEq κ] (k : κ) :
    alookup ([] : List (κ × α)) k = none := rfl

lemma assignedPairs_nil : assignedPairs [] = [] := rfl

lemma assignedPairs_cons_some (le : ResultLesson) (s : FoundSlot) (rs : List AllocResult) :
    assignedPairs (⟨le, some s⟩ :: rs) = (s.date, s.pairNumber) :: assignedPairs rs := rfl

lemma assignedPairs_cons_none (le : ResultLesson) (rs : List AllocResult) :
    assignedPairs (⟨le, none⟩ :: rs) = assignedPairs rs := rfl

lemma assignedPairsFor_nil (g : String) : assignedPairsFor g [] = [] := rfl

lemma assignedPairsFor_cons_some_eq (g : String) (le : ResultLesson) (s : FoundSlot)
    (rs : List AllocResult) (h : le.group = g) :
    assignedPairsFor g (⟨le, some s⟩ :: rs) =
      (s.date, s.pairNumber) :: assignedPairsFor g rs := by
  unfold assignedPairsFor
  rw [List.filterMap_cons]
  simp [h]

lemma assignedPairsFor_cons_some_ne (g : String) (le : ResultLesson) (s : FoundSlot)
    (rs : List AllocResult) (h : ¬le.group = g) :
    assignedPairsFor g (⟨le, some s⟩ :: rs) = assignedPairsFor g rs := by
  unfold assignedPairsFor
  rw [List.filterMap_cons]
  simp [h]

lemma assignedPairsFor_cons_none (g : String) (le : ResultLesson) (rs : List AllocResult) :
    assignedPairsFor g (⟨le, none⟩ :: rs) = assignedPairsFor g rs := by
  unfold assignedPairsFor
  rw [List.filterMap_cons]
  simp

lemma allocGo_cons_none (tOcc : List (Int × List Nat)) (gs : List (String × GroupSchedule))
    (l0 : Lesson) (rest : List Lesson) (vT : List (Int × List Nat))
    (vG : List (String × List (Int × List Nat)))
    (h : findSlotForWeek tOcc (groupOccFor gs l0.group) vT ((alookup vG l0.group).getD [])
      (weekDatesSerial l0.date) = none) :
    allocGo tOcc gs (l0 :: rest) vT vG =
      ⟨mkResultLesson l0, none⟩ :: allocGo tOcc gs rest vT vG := by
  rw [allocGo, h]

lemma allocGo_cons_some (tOcc : List (Int × List Nat)) (gs : List (String × GroupSchedule))
    (l0 : Lesson) (rest : List Lesson) (vT : List (Int × List Nat))
    (vG : List (String × List (Int × List Nat))) (s : FoundSlot)
    (h : findSlotForWeek tOcc (groupOccFor gs l0.group) vT ((alookup vG l0.group).getD [])
      (weekDatesSerial l0.date) = some s) :
    allocGo tOcc gs (l0 :: rest) vT vG =
      ⟨mkResultLesson l0, some s⟩ ::
        allocGo tOcc gs rest (mapAdd vT s.date s.pairNumber)
          (asetUpdate vG l0.group
            (mapAdd ((alookup vG l0.group).getD []) s.date s.pairNumber)) := by
  rw [allocGo, h]

lemma allocGo_slot_none_iff (tOcc : List (Int × List Nat))
    (gs : List (String × GroupSchedule)) :
    ∀ (lessons : List Lesson) (vT : List (Int × List Nat))
      (vG : List (String × List (Int × List Nat))) (i : Nat) (l : Lesson) (r : AllocResult),
      lessons.get? i = some l →
      (allocGo tOcc gs lessons vT vG).get? i = some r →
      (r.slot = none ↔
        ∀ d ∈ weekDatesSerial l.date, ∀ p ∈ PAIR_TIMES,
          p.number ∈ occGet tOcc d
          ∨ p.number ∈ occGet (groupOccFor gs l.group) d
          ∨ (p.number ∈ occGet vT d
            ∨ (d, p.number) ∈ assignedPairs ((allocGo tOcc gs lessons vT vG).take i))
          ∨ (p.number ∈ occGet ((alookup vG l.group).getD []) d
            ∨ (d, p.number) ∈ assignedPairsFor l.group
                ((allocGo tOcc gs lessons vT vG).take i))) := by
  intro lessons
  induction lessons with
  | nil =>
      intro vT vG i l r hl
      exact absurd hl (by simp)
  | cons l0 rest ih =>
      intro vT vG i l r hl hr
      cases i with
      | zero =>
          obtain rfl : l0 = l := Option.some.inj hl
          have hr2 : r = ⟨mkResultLesson l0,
              findSlotForWeek tOcc (groupOccFor gs l0.group) vT
                ((alookup vG l0.group).getD []) (weekDatesSerial l0.date)⟩ :=
            (Option.some.inj hr).symm
          subst hr2
          show findSlotForWeek tOcc (groupOccFor gs l0.group) vT
              ((alookup vG l0.group).getD []) (weekDatesSerial l0.date) = none ↔ _
          rw [findSlotForWeek_eq_none_iff]
          simp only [List.take_zero, assignedPairs_nil, assignedPairsFor_nil,
            List.not_mem_nil, or_false]
      | succ i =>
          have hl2 : rest.get? i = some l := hl
          cases hfind : findSlotForWeek tOcc (groupOccFor gs l0.group) vT
              ((alookup vG l0.group).getD []) (weekDatesSerial l0.date) with
          | none =>
              rw [allocGo_cons_none tOcc gs l0 rest vT vG hfind] at hr ⊢
              rw [List.get?_cons_succ] at hr
              rw [List.take_succ_cons, assignedPairs_cons_none, assignedPairsFor_cons_none]
              exact ih vT vG i l r hl2 hr
          | some s =>
              rw [allocGo_cons_some tOcc gs l0 rest vT vG s hfind] at hr ⊢
              rw [List.get?_cons_succ] at hr
              have HI := ih (mapAdd vT s.date s.pairNumber)
                (asetUpdate vG l0.group
                  (mapAdd ((alookup vG l0.group).getD []) s.date s.pairNumber))
                i l r hl2 hr
              rw [HI, List.take_succ_cons, assignedPairs_cons_some]
              by_cases hg : l0.group = l.group
              · rw [assignedPairsFor_cons_some_eq l.group (mkResultLesson l0) s _ hg]
                rw [← hg]
                rw [alookup_asetUpdate]
                rw [if_pos rfl]
                refine forall_congr' fun d => ?_
                refine imp_congr_right fun hd => ?_
                refine forall_congr' fun p => ?_
                refine imp_congr_right fun hp => ?_
                simp only [mem_occGet_mapAdd, List.mem_cons, Prod.mk.injEq,
                  Option.getD_some]
                tauto
              · rw [assignedPairsFor_cons_some_ne l.group (mkResultLesson l0) s _ hg]
                rw [alookup_asetUpdate, if_neg (fun hc => hg hc.symm)]
                refine forall_congr' fun d => ?_
                refine imp_congr_right fun hd => ?_
                refine forall_congr' fun p => ?_
                refine imp_congr_right fun hp => ?_
                simp only [mem_occGet_mapAdd, List.mem_cons, Prod.mk.injEq]
                tauto

/-- C1: within one allocation batch, two lessons that both receive a slot
never receive the same (date, period): this holds across the whole batch
(they all share the one teacher ledger) and in particular for two lessons of
the same group. -/
theorem allocator_no_collision :
    ∀ (lessons : List Lesson) (gs : List (String × GroupSchedule)) (i j : Nat)
      (hi : i < (allocateSlots lessons gs).length)
      (hj : j < (allocateSlots lessons gs).length),
      i < j →
      ∀ s1 s2, ((allocateSlots lessons gs).get ⟨i, hi⟩).slot = some s1 →
        ((allocateSlots lessons gs).get ⟨j, hj⟩).slot = some s2 →
        (s1.date, s1.pairNumber) ≠ (s2.date, s2.pairNumber)
        ∧ (((allocateSlots lessons gs).get ⟨i, hi⟩).lesson.group =
            ((allocateSlots lessons gs).get ⟨j, hj⟩).lesson.group →
          (s1.date, s1.pairNumber) ≠ (s2.date, s2.pairNumber)) := by
  intro lessons gs i j hi hj hij s1 s2 hs1 hs2
  have hpw := allocGo_pairwise (buildTeacherOccupied lessons) gs lessons [] []
  rw [List.pairwise_iff_get] at hpw
  have hres := hpw ⟨i, hi⟩ ⟨j, hj⟩ hij s1 s2 hs1 hs2
  exact ⟨hres, fun _ => hres⟩

def c1Lessons : List Lesson :=
  [⟨daysFromCivil 2026 2 9, 1, "Г-11", "Алгебра", ""⟩,
   ⟨daysFromCivil 2026 2 9, 2, "Г-11", "Алгебра", ""⟩]

theorem allocator_no_collision_witness :
    ((daysFromCivil 2026 2 9, 3) : Int × Nat) ≠ ((daysFromCivil 2026 2 9, 4) : Int × Nat) :=
  (allocator_no_collision c1Lessons [] 0 1 (by decide) (by decide) (by decide)
    ⟨daysFromCivil 2026 2 9, "Понеділок", 3, "11:10", "12:30"⟩
    ⟨daysFromCivil 2026 2 9, "Понеділок", 4, "12:40", "14:00"⟩
    (by decide) (by decide)).1

/-- C3: the allocator returns exactly one result per input lesson, in input
order, echoing each lesson; and a result carries a null slot exactly when
none of the 5x8 candidates of the week of its lesson is acceptable: every
candidate is in the real teacher occupancy, in the real occupancy of the
group of the lesson, among the slots already assigned earlier in the batch
(the virtual teacher ledger), or among the slots already assigned earlier to
that same group (the virtual group ledger).  In particular such a lesson
yields a null slot, not an error, and the remaining lessons of the batch are
still processed. -/
theorem allocator_totality :
    ∀ (lessons : List Lesson) (gs : List (String × GroupSchedule)),
      (allocateSlots lessons gs).length = lessons.length
      ∧ (allocateSlots lessons gs).map (fun r => r.lesson) = lessons.map mkResultLesson
      ∧ (∀ (i : Nat) (l : Lesson) (r : AllocResult),
          lessons.get? i = some l → (allocateSlots lessons gs).get? i = some r →
          (r.slot = none ↔
            ∀ d ∈ weekDatesSerial l.date, ∀ p ∈ PAIR_TIMES,
              p.number ∈ occGet (buildTeacherOccupied lessons) d
              ∨ p.number ∈ occGet (groupOccFor gs l.group) d
              ∨ (d, p.number) ∈ assignedPairs ((allocateSlots lessons gs).take i)
              ∨ (d, p.number) ∈ assignedPairsFor l.group
                  ((allocateSlots lessons gs).take i))) := by
  intro lessons gs
  refine ⟨allocGo_length (buildTeacherOccupied lessons) gs lessons [] [],
    allocGo_map_lesson (buildTeacherOccupied lessons) gs lessons [] [], ?_⟩
  intro i l r hl hr
  have H := allocGo_slot_none_iff (buildTeacherOccupied lessons) gs lessons [] [] i l r hl hr
  rw [H]
  unfold allocateSlots
  refine forall_congr' fun d => ?_
  refine imp_congr_right fun hd => ?_
  refine forall_congr' fun p => ?_
  refine imp_congr_right fun hp => ?_
  simp only [occGet_nil, alookup_nil, Option.getD_none, List.not_mem_nil, false_or]

def c3Lesson : Lesson := ⟨daysFromCivil 2026 2 9, 1, "Г-12", "Фізика", ""⟩

def c3GS : List (String × GroupSchedule) :=
  [("Г-12", ⟨(weekDatesSerial (daysFromCivil 2026 2 9)).flatMap
    (fun d => (List.range 8).map (fun n => ⟨some d, n + 1⟩))⟩)]

theorem allocator_totality_witness :
    (⟨mkResultLesson c3Lesson, none⟩ : AllocResult).slot = none :=
  ((allocator_totality [c3Lesson] c3GS).2.2 0 c3Lesson ⟨mkResultLesson c3Lesson, none⟩
    (by decide) (by decide)).mpr (by decide)

-- Sanity checks (development only)
example : daysFromCivil 1970 1 1 = 0 := by decide
example : dow (daysFromCivil 2026 2 9) = 1 := by decide
example : formatDate (daysFromCivil 2026 2 9) = "2026-02-09" := by decide
example : civilFromDays (daysFromCivil 2026 1 1) = (2026, 1, 1) := by decide
example : getISOWeek (daysFromCivil 2026 1 1) = "2026-W01" := by decide
example : getISOWeek (daysFromCivil 2026 2 9) = isoWeekKeySpec (daysFromCivil 2026 2 9) := by decide
example : getISOWeek (daysFromCivil 2025 12 29) = "2026-W01" := by decide
example : getISOWeek (daysFromCivil 2024 12 31) = "2025-W01" := by decide
example : getISOWeek (daysFromCivil 2021 1 1) = "2020-W53" := by decide
example : dateRange (daysFromCivil 2026 2 9) (daysFromCivil 2026 2 13) true =
    ["2026-02-09", "2026-02-10", "2026-02-11", "2026-02-12", "2026-02-13"] := by decide
example : getWeekDates (daysFromCivil 2026 2 11) =
    ["2026-02-09", "2026-02-10", "2026-02-11", "2026-02-12", "2026-02-13"] := by decide

-- allocator sanity: two same-week lessons get distinct slots
example :
    (allocateSlots
      [⟨daysFromCivil 2026 2 9, 1, "G1", "Алгебра", ""⟩,
       ⟨daysFromCivil 2026 2 9, 2, "G1", "Алгебра", ""⟩] []).map
        (fun r => r.slot.map (fun s => (s.date, s.pairNumber))) =
    [some (daysFromCivil 2026 2 9, 3), some (daysFromCivil 2026 2 9, 4)] := by decide

-- comparator sanity: spec scenario, A busy at period 1, B busy at period 2
example :
    (findFreeSlots ⟨[⟨some "2026-02-09", 1⟩]⟩ ⟨[⟨some "2026-02-09", 2⟩]⟩
      (daysFromCivil 2026 2 9) (daysFromCivil 2026 2 9)).map (fun s => s.pairNumber) =
    [3, 4, 5, 6, 7, 8] := by decide

example : suggestSlots [mkFreeSlot 0 ⟨1, "08:00", "09:20"⟩] "all" =
    [mkFreeSlot 0 ⟨1, "08:00", "09:20"⟩] := by decide

example :
    (suggestSlots
      [mkFreeSlot (daysFromCivil 2026 2 9) ⟨1, "08:00", "09:20"⟩,
       mkFreeSlot (daysFromCivil 2026 2 10) ⟨2, "09:30", "10:50"⟩,
       mkFreeSlot (daysFromCivil 2026 2 16) ⟨1, "08:00", "09:20"⟩] "first-per-week").map
        (fun s => (s.date, s.pairNumber)) =
    [(daysFromCivil 2026 2 9, 1), (daysFromCivil 2026 2 16, 1)] := by decide

example :
    (suggestSlots
      [mkFreeSlot (daysFromCivil 2026 2 9) ⟨1, "08:00", "09:20"⟩,
       mkFreeSlot (daysFromCivil 2026 2 16) ⟨2, "09:30", "10:50"⟩] "first-per-day").map
        (fun s => (s.date, s.pairNumber)) =
    [(daysFromCivil 2026 2 9, 1)] := by decide
